import Mathlib

/-!
Package methodr: routing on the request method

A shallow embedding of `methodr.go` (package `methodr`) and a verification of its
dispatch and builder behaviour.

Conventions of the embedding.

* `H` is the type of non-nil `http.Handler` values; a struct field or parameter of Go type
  `http.Handler` is an `Option H`, with `none` for the nil interface.
* `W` is the type of `http.ResponseWriter` values. The dispatcher never calls a method of
  the writer; it only hands it on.
* A `*Mux` is an address into the heap of allocated tables (`World.heap`). Dereferencing an
  address that holds no table (the nil pointer) is a run-time panic, modelled as `none`.
* A call `h.ServeHTTP(w, r)` made by the dispatcher is recorded as an `Invocation`; a
  dispatcher function returns the invocations it performs, in order, together with the
  world as its own statements leave it.
-/

namespace Methodr

/-! ## Data model -/

/-- The fields of `http.Request` that a handler can tell requests apart by. The dispatcher
reads `Method` only. -/
structure Request where
  Method : String
  URL : String
  Header : List (String × String)
  Body : String
deriving DecidableEq, Repr

/-- Routing table with handler for all methods (`type Mux struct`). A Go composite literal
leaves the fields it does not name at their zero value, nil. -/
structure Mux (H : Type) where
  Get : Option H := none
  Head : Option H := none
  Post : Option H := none
  Put : Option H := none
  Delete : Option H := none
  Trace : Option H := none
  Options : Option H := none
  Connect : Option H := none
  Patch : Option H := none
  Default : Option H := none
deriving DecidableEq, Repr

def methodGET : String := "GET"
def methodHEAD : String := "HEAD"
def methodPOST : String := "POST"
def methodPUT : String := "PUT"
def methodDELETE : String := "DELETE"
def methodTRACE : String := "TRACE"
def methodOPTIONS : String := "OPTIONS"
def methodCONNECT : String := "CONNECT"
def methodPATCH : String := "PATCH"

/-- A `*Mux`: the address of a table in `World.heap`. -/
abbrev MuxPtr := Nat

/-- The mutable state the package works on: the package-level variable `DefaultHandler`
and the tables allocated so far. `DefaultHandler` has Go type `http.HandlerFunc`; calling
its method `ServeHTTP` is a handler invocation like any other. -/
structure World (H : Type) where
  DefaultHandler : H
  heap : List (Mux H)
deriving DecidableEq, Repr

/-- One call `handler.ServeHTTP(w, r)`. -/
structure Invocation (H W : Type) where
  handler : H
  w : W
  r : Request
deriving DecidableEq, Repr

/-- What a dispatcher function does: `none` for a panic, else the handler invocations it
performed and the world its own statements left. -/
abbrev Outcome (H W : Type) := Option (List (Invocation H W) × World H)

/-! ## Dispatch -/

/-- Use global default handler if there is no custom default handler
(`func (m *Mux) handleDefault`). -/
def Mux.handleDefault {H W : Type} (m : MuxPtr) (w : W) (r : Request) (σ : World H) :
    Outcome H W :=
  match σ.heap[m]? with
  | none => none
  | some t =>
    match t.Default with
    | none => some ([⟨σ.DefaultHandler, w, r⟩], σ)
    | some d => some ([⟨d, w, r⟩], σ)

/-- Routes requests depending on method routing table (`func (m *Mux) ServeHTTP`). The Go
`switch r.Method` compares the method string with each case constant in turn. -/
def Mux.ServeHTTP {H W : Type} (m : MuxPtr) (w : W) (r : Request) (σ : World H) :
    Outcome H W :=
  match σ.heap[m]? with
  | none => none
  | some t =>
    if r.Method = methodGET then
      match t.Get with
      | some h => some ([⟨h, w, r⟩], σ)
      | none => Mux.handleDefault m w r σ
    else if r.Method = methodHEAD then
      match t.Head with
      | some h => some ([⟨h, w, r⟩], σ)
      | none =>
        match t.Get with
        | some g => some ([⟨g, w, r⟩], σ)
        | none => Mux.handleDefault m w r σ
    else if r.Method = methodPOST then
      match t.Post with
      | some h => some ([⟨h, w, r⟩], σ)
      | none => Mux.handleDefault m w r σ
    else if r.Method = methodPUT then
      match t.Put with
      | some h => some ([⟨h, w, r⟩], σ)
      | none => Mux.handleDefault m w r σ
    else if r.Method = methodDELETE then
      match t.Delete with
      | some h => some ([⟨h, w, r⟩], σ)
      | none => Mux.handleDefault m w r σ
    else if r.Method = methodTRACE then
      match t.Trace with
      | some h => some ([⟨h, w, r⟩], σ)
      | none => Mux.handleDefault m w r σ
    else if r.Method = methodOPTIONS then
      match t.Options with
      | some h => some ([⟨h, w, r⟩], σ)
      | none => Mux.handleDefault m w r σ
    else if r.Method = methodCONNECT then
      match t.Connect with
      | some h => some ([⟨h, w, r⟩], σ)
      | none => Mux.handleDefault m w r σ
    else if r.Method = methodPATCH then
      match t.Patch with
      | some h => some ([⟨h, w, r⟩], σ)
      | none => Mux.handleDefault m w r σ
    else
      Mux.handleDefault m w r σ

/-! ## Builders -/

/-- Allocation of a composite literal `&Mux{...}`: the new table gets the next free
address. -/
def World.alloc {H : Type} (σ : World H) (t : Mux H) : MuxPtr × World H :=
  (σ.heap.length, { σ with heap := σ.heap ++ [t] })

/-- An assignment `m.F = h` through the pointer `m`, given as the update `f` of the
table, followed by `return m`. -/
def World.assign {H : Type} (σ : World H) (m : MuxPtr) (f : Mux H → Mux H) :
    Option (MuxPtr × World H) :=
  match σ.heap[m]? with
  | none => none
  | some t => some (m, { σ with heap := σ.heap.set m (f t) })

/-- Standalone `DEFAULT(h)`: `return &Mux{Default: h}`. -/
def DEFAULT {H : Type} (h : Option H) (σ : World H) : MuxPtr × World H :=
  σ.alloc { Default := h }

/-- Method `m.DEFAULT(h)`: `m.Default = h; return m`. -/
def Mux.DEFAULT {H : Type} (m : MuxPtr) (h : Option H) (σ : World H) :
    Option (MuxPtr × World H) :=
  σ.assign m fun t => { t with Default := h }

/-- Standalone `GET(h)`: `return &Mux{Get: h}`. -/
def GET {H : Type} (h : Option H) (σ : World H) : MuxPtr × World H :=
  σ.alloc { Get := h }

/-- Method `m.GET(h)`: `m.Get = h; return m`. -/
def Mux.GET {H : Type} (m : MuxPtr) (h : Option H) (σ : World H) :
    Option (MuxPtr × World H) :=
  σ.assign m fun t => { t with Get := h }

/-- Standalone `HEAD(h)`: `return &Mux{Head: h}`. -/
def HEAD {H : Type} (h : Option H) (σ : World H) : MuxPtr × World H :=
  σ.alloc { Head := h }

/-- Method `m.HEAD(h)`: `m.Head = h; return m`. -/
def Mux.HEAD {H : Type} (m : MuxPtr) (h : Option H) (σ : World H) :
    Option (MuxPtr × World H) :=
  σ.assign m fun t => { t with Head := h }

/-- Standalone `POST(h)`: `return &Mux{Post: h}`. -/
def POST {H : Type} (h : Option H) (σ : World H) : MuxPtr × World H :=
  σ.alloc { Post := h }

/-- Method `m.POST(h)`: `m.Post = h; return m`. -/
def Mux.POST {H : Type} (m : MuxPtr) (h : Option H) (σ : World H) :
    Option (MuxPtr × World H) :=
  σ.assign m fun t => { t with Post := h }

/-- Standalone `PUT(h)`: `return &Mux{Put: h}`. -/
def PUT {H : Type} (h : Option H) (σ : World H) : MuxPtr × World H :=
  σ.alloc { Put := h }

/-- Method `m.PUT(h)`: `m.Put = h; return m`. -/
def Mux.PUT {H : Type} (m : MuxPtr) (h : Option H) (σ : World H) :
    Option (MuxPtr × World H) :=
  σ.assign m fun t => { t with Put := h }

/-- Standalone `DELETE(h)`: `return &Mux{Delete: h}`. -/
def DELETE {H : Type} (h : Option H) (σ : World H) : MuxPtr × World H :=
  σ.alloc { Delete := h }

/-- Method `m.DELETE(h)`: `m.Delete = h; return m`. -/
def Mux.DELETE {H : Type} (m : MuxPtr) (h : Option H) (σ : World H) :
    Option (MuxPtr × World H) :=
  σ.assign m fun t => { t with Delete := h }

/-- Standalone `TRACE(h)`: `return &Mux{Trace: h}`. -/
def TRACE {H : Type} (h : Option H) (σ : World H) : MuxPtr × World H :=
  σ.alloc { Trace := h }

/-- Method `m.TRACE(h)`: `m.Trace = h; return m`. -/
def Mux.TRACE {H : Type} (m : MuxPtr) (h : Option H) (σ : World H) :
    Option (MuxPtr × World H) :=
  σ.assign m fun t => { t with Trace := h }

/-- Standalone `OPTIONS(h)`: `return &Mux{Options: h}`. -/
def OPTIONS {H : Type} (h : Option H) (σ : World H) : MuxPtr × World H :=
  σ.alloc { Options := h }

/-- Method `m.OPTIONS(h)`: `m.Options = h; return m`. -/
def Mux.OPTIONS {H : Type} (m : MuxPtr) (h : Option H) (σ : World H) :
    Option (MuxPtr × World H) :=
  σ.assign m fun t => { t with Options := h }

/-- Standalone `CONNECT(h)`: `return &Mux{Connect: h}`. -/
def CONNECT {H : Type} (h : Option H) (σ : World H) : MuxPtr × World H :=
  σ.alloc { Connect := h }

/-- Method `m.CONNECT(h)`: `m.Connect = h; return m`. -/
def Mux.CONNECT {H : Type} (m : MuxPtr) (h : Option H) (σ : World H) :
    Option (MuxPtr × World H) :=
  σ.assign m fun t => { t with Connect := h }

/-- Standalone `PATCH(h)`: `return &Mux{Patch: h}`. -/
def PATCH {H : Type} (h : Option H) (σ : World H) : MuxPtr × World H :=
  σ.alloc { Patch := h }

/-- Method `m.PATCH(h)`: `m.Patch = h; return m`. -/
def Mux.PATCH {H : Type} (m : MuxPtr) (h : Option H) (σ : World H) :
    Option (MuxPtr × World H) :=
  σ.assign m fun t => { t with Patch := h }

/-! ## The built-in handler -/

/-- A method call received by an `http.ResponseWriter`. -/
inductive WriterCall where
  | WriteHeader (statusCode : Nat)
  | Write (p : String)
deriving DecidableEq, Repr

/-- An `http.ResponseWriter` as a handler sees it: the calls it has received so far, oldest
first. -/
abbrev ResponseWriter := List WriterCall

/-- The call `w.WriteHeader(statusCode)`. -/
def ResponseWriter.WriteHeader (w : ResponseWriter) (statusCode : Nat) : ResponseWriter :=
  w ++ [WriterCall.WriteHeader statusCode]

/-- The status a writer sends, as net/http fixes it: the first call decides, and a `Write`
before any `WriteHeader` sends 200. -/
def ResponseWriter.status : ResponseWriter → Option Nat
  | [] => none
  | WriterCall.WriteHeader c :: _ => some c
  | WriterCall.Write _ :: _ => some 200

/-- The body bytes a writer has been given. -/
def ResponseWriter.body : ResponseWriter → String
  | [] => ""
  | WriterCall.WriteHeader _ :: w => ResponseWriter.body w
  | WriterCall.Write p :: w => p ++ ResponseWriter.body w

/-- The constant `http.StatusMethodNotAllowed`. -/
def StatusMethodNotAllowed : Nat := 405

/-- The function `defaultHandleMethodNotAllowed`: `w.WriteHeader(http.StatusMethodNotAllowed)`. -/
def defaultHandleMethodNotAllowed (w : ResponseWriter) (_r : Request) : ResponseWriter :=
  w.WriteHeader StatusMethodNotAllowed

/-- Handler values of a program using the package: the package's own
`http.HandlerFunc(defaultHandleMethodNotAllowed)`, or a handler `a` of the embedding
application. -/
inductive Handler (A : Type) where
  | methodNotAllowed
  | app (a : A)
deriving DecidableEq, Repr

/-- The package-level variable `DefaultHandlerMethodNotAllowed`. -/
def DefaultHandlerMethodNotAllowed {A : Type} : Handler A := Handler.methodNotAllowed

/-- For tests only - consistent with DefaultHandler (`defaultHandlerStatusCode`). -/
def defaultHandlerStatusCode : Nat := StatusMethodNotAllowed

/-- The world after package initialisation: `DefaultHandler = DefaultHandlerMethodNotAllowed`
and no table allocated. -/
def World.init {A : Type} : World (Handler A) :=
  { DefaultHandler := DefaultHandlerMethodNotAllowed, heap := [] }

/-- The call `h.ServeHTTP(w, r)` on a handler value; `app` gives the behaviour of the
application's handlers. `http.HandlerFunc.ServeHTTP` calls the wrapped function. -/
def Handler.ServeHTTP {A : Type} (app : A → ResponseWriter → Request → ResponseWriter) :
    Handler A → ResponseWriter → Request → ResponseWriter
  | Handler.methodNotAllowed, w, r => defaultHandleMethodNotAllowed w r
  | Handler.app a, w, r => app a w r

/-- Performing recorded invocations in order on the writer they were handed. -/
def perform {A : Type} (app : A → ResponseWriter → Request → ResponseWriter) :
    List (Invocation (Handler A) ResponseWriter) → List ResponseWriter
  | [] => []
  | i :: is => Handler.ServeHTTP app i.handler i.w i.r :: perform app is

/-! ## Enumerations used to state properties over all methods and slots -/

/-- The nine recognized methods, one per `case` of the switch in `Mux.ServeHTTP`. -/
inductive Method where
  | GET | HEAD | POST | PUT | DELETE | TRACE | OPTIONS | CONNECT | PATCH
deriving DecidableEq, Repr

/-- The method string of a recognized method (the constants `methodGET` ... `methodPATCH`). -/
def Method.name : Method → String
  | Method.GET => methodGET
  | Method.HEAD => methodHEAD
  | Method.POST => methodPOST
  | Method.PUT => methodPUT
  | Method.DELETE => methodDELETE
  | Method.TRACE => methodTRACE
  | Method.OPTIONS => methodOPTIONS
  | Method.CONNECT => methodCONNECT
  | Method.PATCH => methodPATCH

/-- The struct field of `Mux` that belongs to a method. -/
def Method.field {H : Type} : Method → Mux H → Option H
  | Method.GET, t => t.Get
  | Method.HEAD, t => t.Head
  | Method.POST, t => t.Post
  | Method.PUT, t => t.Put
  | Method.DELETE, t => t.Delete
  | Method.TRACE, t => t.Trace
  | Method.OPTIONS, t => t.Options
  | Method.CONNECT, t => t.Connect
  | Method.PATCH, t => t.Patch

/-- The standalone constructor of a method. -/
def Method.ctor {H : Type} : Method → Option H → World H → MuxPtr × World H
  | Method.GET => Methodr.GET
  | Method.HEAD => Methodr.HEAD
  | Method.POST => Methodr.POST
  | Method.PUT => Methodr.PUT
  | Method.DELETE => Methodr.DELETE
  | Method.TRACE => Methodr.TRACE
  | Method.OPTIONS => Methodr.OPTIONS
  | Method.CONNECT => Methodr.CONNECT
  | Method.PATCH => Methodr.PATCH

/-- The setter method of `*Mux` of a method. -/
def Method.setter {H : Type} :
    Method → MuxPtr → Option H → World H → Option (MuxPtr × World H)
  | Method.GET => Mux.GET
  | Method.HEAD => Mux.HEAD
  | Method.POST => Mux.POST
  | Method.PUT => Mux.PUT
  | Method.DELETE => Mux.DELETE
  | Method.TRACE => Mux.TRACE
  | Method.OPTIONS => Mux.OPTIONS
  | Method.CONNECT => Mux.CONNECT
  | Method.PATCH => Mux.PATCH

/-- The ten fields of `Mux`: one per method, and `Default`. -/
inductive Slot where
  | method (M : Method)
  | Default
deriving DecidableEq, Repr

/-- The struct field of a slot. -/
def Slot.field {H : Type} : Slot → Mux H → Option H
  | Slot.method M, t => M.field t
  | Slot.Default, t => t.Default

/-- The standalone constructor of a slot. -/
def Slot.ctor {H : Type} : Slot → Option H → World H → MuxPtr × World H
  | Slot.method M => M.ctor
  | Slot.Default => Methodr.DEFAULT

/-- The setter method of a slot. -/
def Slot.setter {H : Type} :
    Slot → MuxPtr → Option H → World H → Option (MuxPtr × World H)
  | Slot.method M => M.setter
  | Slot.Default => Mux.DEFAULT

/-- A method call `x.f(...)` on the pointer a builder expression `x` returned: the chain
`x.f(...)` panics when `x` did. -/
def chain {H : Type} (x : Option (MuxPtr × World H))
    (f : MuxPtr → World H → Option (MuxPtr × World H)) : Option (MuxPtr × World H) :=
  match x with
  | none => none
  | some (m, σ) => f m σ

/-- Dispatch on the table a builder expression `x` returned. -/
def serve {H W : Type} (x : Option (MuxPtr × World H)) (w : W) (r : Request) :
    Outcome H W :=
  match x with
  | none => none
  | some (m, σ) => Mux.ServeHTTP m w r σ

/-- A request: `http.NewRequest(method, "", nil)` as the tests build it. -/
def NewRequest (method : String) : Request :=
  { Method := method, URL := "", Header := [], Body := "" }

/-- The assignment `t.F = h` to the struct field `F` of a slot, as an update of the table
value. -/
def Slot.update {H : Type} : Slot → Option H → Mux H → Mux H
  | Slot.method Method.GET, h, t => { t with Get := h }
  | Slot.method Method.HEAD, h, t => { t with Head := h }
  | Slot.method Method.POST, h, t => { t with Post := h }
  | Slot.method Method.PUT, h, t => { t with Put := h }
  | Slot.method Method.DELETE, h, t => { t with Delete := h }
  | Slot.method Method.TRACE, h, t => { t with Trace := h }
  | Slot.method Method.OPTIONS, h, t => { t with Options := h }
  | Slot.method Method.CONNECT, h, t => { t with Connect := h }
  | Slot.method Method.PATCH, h, t => { t with Patch := h }
  | Slot.Default, h, t => { t with Default := h }

/-- A request with method string `method` misses the table `t`: the method is not one of
the nine recognized ones, or the slot of the method is nil and HEAD-to-GET delegation does
not apply (delegation applies to a HEAD request when `Get` is not nil). -/
def Mux.Misses {H : Type} (t : Mux H) (method : String) : Prop :=
  (∀ M : Method, method ≠ M.name)
  ∨ ∃ M : Method, method = M.name ∧ M.field t = none
      ∧ ¬ (M = Method.HEAD ∧ t.Get ≠ none)

/-- A world with handler values numbered by `Nat`: the global `DefaultHandler` is handler 0
and one table is allocated, with every slot and the fallback set to distinct handlers. -/
def fullWorld : World Nat :=
  { DefaultHandler := 0
    heap := [{ Get := some 1, Head := some 2, Post := some 3, Put := some 4, Delete := some 5,
               Trace := some 6, Options := some 7, Connect := some 8, Patch := some 9,
               Default := some 10 }] }

/-- A world with handler values numbered by `Nat`, the global `DefaultHandler` being
handler 0, and no table allocated. -/
def emptyWorld : World Nat := { DefaultHandler := 0, heap := [] }

/-! ## Handlers of the tests -/

/-- Status codes depending on method, for tests only (`statusGET = iota + 200` and the
eight constants after it). -/
def statusGET : Nat := 200
def statusHEAD : Nat := 201
def statusPOST : Nat := 202
def statusPUT : Nat := 203
def statusDELETE : Nat := 204
def statusTRACE : Nat := 205
def statusOPTIONS : Nat := 206
def statusCONNECT : Nat := 207
def statusPATCH : Nat := 208

/-- The constant `http.StatusNotFound`. -/
def StatusNotFound : Nat := 404

/-- Success handler, writes status code depending on request method (`succHandler` of
`methodr_test.go`): `status` starts at 0 and the switch has no default case. -/
def succHandler (w : ResponseWriter) (r : Request) : ResponseWriter :=
  w.WriteHeader
    (if r.Method = methodGET then statusGET
     else if r.Method = methodHEAD then statusHEAD
     else if r.Method = methodPOST then statusPOST
     else if r.Method = methodPUT then statusPUT
     else if r.Method = methodDELETE then statusDELETE
     else if r.Method = methodTRACE then statusTRACE
     else if r.Method = methodOPTIONS then statusOPTIONS
     else if r.Method = methodCONNECT then statusCONNECT
     else if r.Method = methodPATCH then statusPATCH
     else 0)

/-- Handler returning 404 (`deadHandler` of `methodr_test.go`). -/
def deadHandler (w : ResponseWriter) (_r : Request) : ResponseWriter :=
  w.WriteHeader StatusNotFound

/-- The two handlers the tests register. -/
inductive TestHandler where
  | succ
  | dead
deriving DecidableEq, Repr

/-- The behaviour of the handlers of the tests. -/
def testApp : TestHandler → ResponseWriter → Request → ResponseWriter
  | TestHandler.succ => succHandler
  | TestHandler.dead => deadHandler

/-- A world with handler values numbered by `Nat`, the global `DefaultHandler` being
handler 0, and one table allocated, with `Get` set to handler 1 and every other field nil. -/
def getOnlyWorld : World Nat := { DefaultHandler := 0, heap := [{ Get := some 1 }] }

/-- A POST request with a URL, a header and a body. -/
def postFoo4 : Request :=
  { Method := "POST", URL := "/foo4", Header := [("Accept", "text/plain")], Body := "x" }

/-- A world with handler values numbered by `Nat`, the global `DefaultHandler` being
handler 0, and two tables that agree on `Post` (handler 3) and `Default` (nil) and differ
in every other slot. -/
def twoTables : World Nat :=
  { DefaultHandler := 0
    heap := [{ Get := some 1, Head := some 2, Post := some 3, Put := some 4,
               Delete := some 5, Trace := some 6, Options := some 7, Connect := some 8,
               Patch := some 9 },
             { Post := some 3 }] }

end Methodr

namespace Methodr

/-! ## Heap lemmas -/

theorem lookup_set_self {α : Type} {l : List α} {m : Nat} {t : α} (x : α)
    (hm : l[m]? = some t) : (l.set m x)[m]? = some x := by
  have hlt : m < l.length := by
    rcases Nat.lt_or_ge m l.length with h | h
    · exact h
    · rw [List.getElem?_eq_none h] at hm
      cases hm
  simp [List.getElem?_set_self hlt]

theorem assign_of_lookup {H : Type} {σ : World H} {m : MuxPtr} {t : Mux H}
    (f : Mux H → Mux H) (hm : σ.heap[m]? = some t) :
    σ.assign m f = some (m, { σ with heap := σ.heap.set m (f t) }) := by
  simp [World.assign, hm]

theorem alloc_then_assign {H : Type} (σ : World H) (t : Mux H) (f : Mux H → Mux H) :
    chain (some (σ.alloc t)) (fun p s => s.assign p f)
      = some (σ.heap.length, { σ with heap := σ.heap ++ [f t] }) := by
  simp [chain, World.alloc, World.assign]

/-! ## Dispatch: hits -/

/-- C1 (hit). For each of the nine methods `M`, every table `t` (at address `m`) and every
request whose method is `M`: when slot `M` of `t` holds the handler `h`, `ServeHTTP` performs
the single invocation `h.ServeHTTP(w, r)` whatever the other slots, `Default` and the global
`DefaultHandler` hold; this is the case for the table built by the standalone constructor
`M(h)`, and for the table `t` after `t.M(h)`. -/
theorem hit_invokes_slot_handler {H W : Type} (M : Method) (σ : World H) (m : MuxPtr)
    (t : Mux H) (h : H) (w : W) (r : Request)
    (hm : σ.heap[m]? = some t) (hr : r.Method = M.name) :
    (M.field t = some h → Mux.ServeHTTP m w r σ = some ([⟨h, w, r⟩], σ))
    ∧ serve (some (M.ctor (some h) σ)) w r = some ([⟨h, w, r⟩], (M.ctor (some h) σ).2)
    ∧ ∃ σ1, M.setter m (some h) σ = some (m, σ1)
        ∧ Mux.ServeHTTP m w r σ1 = some ([⟨h, w, r⟩], σ1) := by
  refine ⟨?_, ?_, ?_⟩
  · intro hs
    cases M <;>
      simp [Method.field] at hs <;>
      simp [Method.name] at hr <;>
      simp [Mux.ServeHTTP, hm, hr, hs, methodGET, methodHEAD, methodPOST, methodPUT,
        methodDELETE, methodTRACE, methodOPTIONS, methodCONNECT, methodPATCH]
  · cases M <;>
      simp [Method.name] at hr <;>
      simp [serve, Method.ctor, GET, HEAD, POST, PUT, DELETE, TRACE, OPTIONS, CONNECT, PATCH,
        World.alloc, Mux.ServeHTTP, hr, methodGET, methodHEAD, methodPOST, methodPUT,
        methodDELETE, methodTRACE, methodOPTIONS, methodCONNECT, methodPATCH]
  · cases M <;>
      simp [Method.name] at hr <;>
      simp [Method.setter, Mux.GET, Mux.HEAD, Mux.POST, Mux.PUT, Mux.DELETE, Mux.TRACE,
        Mux.OPTIONS, Mux.CONNECT, Mux.PATCH, assign_of_lookup _ hm, Mux.ServeHTTP,
        lookup_set_self _ hm, hr, methodGET, methodHEAD, methodPOST, methodPUT,
        methodDELETE, methodTRACE, methodOPTIONS, methodCONNECT, methodPATCH]

/-- Witness for C1: a PUT request against the fully set table of `fullWorld` invokes the
Put handler 4. -/
theorem hit_invokes_slot_handler_witness :
    Mux.ServeHTTP 0 () (NewRequest "PUT") fullWorld
      = some ([⟨4, (), NewRequest "PUT"⟩], fullWorld) :=
  (hit_invokes_slot_handler Method.PUT fullWorld 0
    { Get := some 1, Head := some 2, Post := some 3, Put := some 4, Delete := some 5,
      Trace := some 6, Options := some 7, Connect := some 8, Patch := some 9,
      Default := some 10 } 4 () (NewRequest "PUT") (by decide) (by decide)).1 (by decide)

/-- C2, as stated, fails: against the table `GET(h)` with `h` handler 1 and the global
`DefaultHandler` handler 0, a request with the other recognized method HEAD does not
invoke the global `DefaultHandler`; it invokes `h`. -/
theorem only_slot_other_method_HEAD_on_GET_invokes_h :
    Method.HEAD ≠ Method.GET
    ∧ serve (some (Method.GET.ctor (some 1) emptyWorld)) () (NewRequest Method.HEAD.name)
        ≠ some ([⟨emptyWorld.DefaultHandler, (), NewRequest Method.HEAD.name⟩],
            (Method.GET.ctor (some 1) emptyWorld).2)
    ∧ serve (some (Method.GET.ctor (some 1) emptyWorld)) () (NewRequest Method.HEAD.name)
        = some ([⟨1, (), NewRequest Method.HEAD.name⟩],
            (Method.GET.ctor (some 1) emptyWorld).2) := by
  decide

/-- C2 (amended). For all nine methods `M`, every handler `h` and every request with a
recognized method `M1`, dispatching against the table `M(h)` (only slot `M` set, no
fallback): the request invokes `h` when `M1 = M`, and also when `M = GET` and `M1 = HEAD`;
for every other recognized `M1` it invokes the global `DefaultHandler`. -/
theorem only_slot_dispatch {H W : Type} (M M1 : Method) (h : H) (σ : World H) (w : W)
    (r : Request) (hr : r.Method = M1.name) :
    serve (some (M.ctor (some h) σ)) w r
      = some ([⟨if M1 = M ∨ (M = Method.GET ∧ M1 = Method.HEAD) then h
                else σ.DefaultHandler, w, r⟩], (M.ctor (some h) σ).2) := by
  cases M <;> cases M1 <;>
    simp [Method.name] at hr <;>
    simp [serve, Method.ctor, GET, HEAD, POST, PUT, DELETE, TRACE, OPTIONS, CONNECT, PATCH,
      World.alloc, Mux.ServeHTTP, Mux.handleDefault, hr, methodGET, methodHEAD, methodPOST,
      methodPUT, methodDELETE, methodTRACE, methodOPTIONS, methodCONNECT, methodPATCH]

/-- Witness for C2 (amended): a DELETE request against `POST(h)` with `h` handler 1
invokes the global `DefaultHandler`, handler 0. -/
theorem only_slot_dispatch_witness :
    serve (some (POST (some 1) emptyWorld)) () (NewRequest "DELETE")
      = some ([⟨0, (), NewRequest "DELETE"⟩], (POST (some 1) emptyWorld).2) :=
  only_slot_dispatch Method.POST Method.DELETE 1 emptyWorld () (NewRequest "DELETE")
    (by decide)

/-! ## Dispatch: HEAD -/

/-- C3 (HEAD delegation). For every table whose `Head` slot is nil and every HEAD request:
when `Get` holds `g` the single invocation is `g.ServeHTTP(w, r)`, whatever the other
slots, `Default` and the global `DefaultHandler` hold; when `Get` is nil too the
request takes the miss path `handleDefault`. -/
theorem head_delegates_to_get {H W : Type} (σ : World H) (m : MuxPtr) (t : Mux H) (w : W)
    (r : Request) (hm : σ.heap[m]? = some t) (hr : r.Method = methodHEAD)
    (hh : t.Head = none) :
    (∀ g, t.Get = some g → Mux.ServeHTTP m w r σ = some ([⟨g, w, r⟩], σ))
    ∧ (t.Get = none → Mux.ServeHTTP m w r σ = Mux.handleDefault m w r σ
        ∧ Mux.ServeHTTP m w r σ
            = some ([⟨t.Default.getD σ.DefaultHandler, w, r⟩], σ)) := by
  refine ⟨?_, ?_⟩
  · intro g hg
    simp [Mux.ServeHTTP, hm, hr, hh, hg, methodGET, methodHEAD]
  · intro hg
    cases hd : t.Default <;>
      simp [Mux.ServeHTTP, Mux.handleDefault, hm, hr, hh, hg, hd, methodGET, methodHEAD]

/-- Witness for C3: a HEAD request against a table with `Get` handler 1, `Default`
handler 2 and `Head` nil invokes handler 1. -/
theorem head_delegates_to_get_witness :
    Mux.ServeHTTP 0 () (NewRequest "HEAD")
        { DefaultHandler := 0, heap := [{ Get := some 1, Default := some 2 }] }
      = some ([⟨1, (), NewRequest "HEAD"⟩],
          { DefaultHandler := 0, heap := [{ Get := some 1, Default := some 2 }] }) :=
  (head_delegates_to_get { DefaultHandler := 0, heap := [{ Get := some 1, Default := some 2 }] }
    0 { Get := some 1, Default := some 2 } () (NewRequest "HEAD") (by decide) (by decide)
    (by decide)).1 1 (by decide)

/-- C4 (HEAD precedence). For every table whose `Head` slot holds `hd` and whose `Get` slot
holds `g`, a HEAD request performs the single invocation `hd.ServeHTTP(w, r)`; the chains
`GET(g).HEAD(hd)` and `HEAD(hd).GET(g)`, run in any world, both build such a table and a
HEAD request against it invokes `hd`. -/
theorem head_precedence {H W : Type} (σ : World H) (m : MuxPtr) (t : Mux H) (hd g : H)
    (w : W) (r : Request) (hm : σ.heap[m]? = some t) (hr : r.Method = methodHEAD)
    (hh : t.Head = some hd) (_hg : t.Get = some g) :
    Mux.ServeHTTP m w r σ = some ([⟨hd, w, r⟩], σ)
    ∧ serve (chain (some (GET (some g) σ)) (fun p => Mux.HEAD p (some hd))) w r
        = some ([⟨hd, w, r⟩],
            { σ with heap := σ.heap ++ [{ Get := some g, Head := some hd }] })
    ∧ serve (chain (some (HEAD (some hd) σ)) (fun p => Mux.GET p (some g))) w r
        = some ([⟨hd, w, r⟩],
            { σ with heap := σ.heap ++ [{ Get := some g, Head := some hd }] }) := by
  refine ⟨?_, ?_, ?_⟩
  · simp [Mux.ServeHTTP, hm, hr, hh, methodGET, methodHEAD]
  · simp [GET, Mux.HEAD, chain, World.alloc, World.assign, serve, Mux.ServeHTTP, hr,
      methodGET, methodHEAD]
  · simp [HEAD, Mux.GET, chain, World.alloc, World.assign, serve, Mux.ServeHTTP, hr,
      methodGET, methodHEAD]

/-- Witness for C4: a HEAD request against the fully set table of `fullWorld` invokes the
Head handler 2, not the Get handler 1. -/
theorem head_precedence_witness :
    Mux.ServeHTTP 0 () (NewRequest "HEAD") fullWorld
      = some ([⟨2, (), NewRequest "HEAD"⟩], fullWorld) :=
  (head_precedence fullWorld 0
    { Get := some 1, Head := some 2, Post := some 3, Put := some 4, Delete := some 5,
      Trace := some 6, Options := some 7, Connect := some 8, Patch := some 9,
      Default := some 10 } 2 1 () (NewRequest "HEAD") (by decide) (by decide) (by decide)
    (by decide)).1

/-! ## Dispatch: misses -/

theorem miss_dispatch {H W : Type} (σ : World H) (m : MuxPtr) (t : Mux H) (w : W)
    (r : Request) (hm : σ.heap[m]? = some t) (hmiss : t.Misses r.Method) :
    Mux.ServeHTTP m w r σ = Mux.handleDefault m w r σ := by
  rcases hmiss with hun | ⟨M, hM, hf, hdel⟩
  · have h1 := hun Method.GET
    have h2 := hun Method.HEAD
    have h3 := hun Method.POST
    have h4 := hun Method.PUT
    have h5 := hun Method.DELETE
    have h6 := hun Method.TRACE
    have h7 := hun Method.OPTIONS
    have h8 := hun Method.CONNECT
    have h9 := hun Method.PATCH
    simp only [Method.name] at h1 h2 h3 h4 h5 h6 h7 h8 h9
    simp [Mux.ServeHTTP, hm, h1, h2, h3, h4, h5, h6, h7, h8, h9]
  · cases M <;>
      simp [Method.field] at hf <;>
      simp [Method.name] at hM <;>
      simp at hdel <;>
      simp [Mux.ServeHTTP, hm, hM, hf, hdel, methodGET, methodHEAD, methodPOST, methodPUT,
        methodDELETE, methodTRACE, methodOPTIONS, methodCONNECT, methodPATCH]

theorem handleDefault_eq {H W : Type} (σ : World H) (m : MuxPtr) (t : Mux H) (w : W)
    (r : Request) (hm : σ.heap[m]? = some t) :
    Mux.handleDefault m w r σ = some ([⟨t.Default.getD σ.DefaultHandler, w, r⟩], σ) := by
  cases hd : t.Default <;> simp [Mux.handleDefault, hm, hd]

/-- C5 (fallback precedence). For every table whose `Default` slot holds `d` and every
request that misses the table, `ServeHTTP` performs the single invocation
`d.ServeHTTP(w, r)`, whatever the global `DefaultHandler` is. The chains `M(h).DEFAULT(d)`
and `DEFAULT(d).M(h)`, run in any world, each build a table whose `Default` is `d`, and every
request that misses that table invokes `d`. -/
theorem fallback_precedence {H W : Type} (σ : World H) (m : MuxPtr) (t : Mux H) (d : H)
    (w : W) (r : Request) (hm : σ.heap[m]? = some t) (hd : t.Default = some d)
    (hmiss : t.Misses r.Method) :
    Mux.ServeHTTP m w r σ = some ([⟨d, w, r⟩], σ)
    ∧ ∀ (M : Method) (h : Option H) (x : Option (MuxPtr × World H)),
        x = chain (some (M.ctor h σ)) (fun p => Mux.DEFAULT p (some d))
          ∨ x = chain (some (DEFAULT (some d) σ)) (fun p => M.setter p h) →
        ∃ p σ1 t1, x = some (p, σ1) ∧ σ1.heap[p]? = some t1 ∧ t1.Default = some d
          ∧ ∀ (q : Request), t1.Misses q.Method →
              serve x w q = some ([⟨d, w, q⟩], σ1) := by
  have key : ∀ (s : World H) (p : MuxPtr) (u : Mux H) (q : Request),
      s.heap[p]? = some u → u.Default = some d → u.Misses q.Method →
      Mux.ServeHTTP p w q s = some ([⟨d, w, q⟩], s) := by
    intro s p u q hp hu hq
    rw [miss_dispatch s p u w q hp hq, handleDefault_eq s p u w q hp, hu]
    rfl
  refine ⟨key σ m t r hm hd hmiss, ?_⟩
  intro M h x hx
  cases M <;> rcases hx with rfl | rfl <;>
    simp [chain, Method.ctor, Method.setter, GET, HEAD, POST, PUT, DELETE, TRACE, OPTIONS,
      CONNECT, PATCH, DEFAULT, Mux.GET, Mux.HEAD, Mux.POST, Mux.PUT, Mux.DELETE, Mux.TRACE,
      Mux.OPTIONS, Mux.CONNECT, Mux.PATCH, Mux.DEFAULT, World.alloc, World.assign]
  all_goals
    refine ⟨_, _, ⟨rfl, rfl⟩, _, List.getElem?_concat_length _ _, rfl, ?_⟩
    intro q hq
    exact key _ _ _ q (List.getElem?_concat_length _ _) rfl hq

/-- Witness for C5: a POST request against the table with `Get` handler 1 and `Default`
handler 2 invokes handler 2, not the global `DefaultHandler` 0. -/
theorem fallback_precedence_witness :
    Mux.ServeHTTP 0 () (NewRequest "POST")
        { DefaultHandler := 0, heap := [{ Get := some 1, Default := some 2 }] }
      = some ([⟨2, (), NewRequest "POST"⟩],
          { DefaultHandler := 0, heap := [{ Get := some 1, Default := some 2 }] }) :=
  (fallback_precedence { DefaultHandler := 0, heap := [{ Get := some 1, Default := some 2 }] }
    0 { Get := some 1, Default := some 2 } 2 () (NewRequest "POST") (by decide) (by decide)
    (Or.inr ⟨Method.POST, by decide, by decide, by decide⟩)).1

/-- C6 (global default). For every table whose `Default` slot is nil and every request that
misses the table, `ServeHTTP` performs the single invocation of the current value of the
global `DefaultHandler`. After package initialisation that value is
`DefaultHandlerMethodNotAllowed`; while it is, a miss makes the writer receive the one call
`WriteHeader(405)`, and for the table `GET(h1)` a POST request on a fresh writer yields
status 405. -/
theorem miss_without_fallback_invokes_global {H W : Type} (σ : World H) (m : MuxPtr)
    (t : Mux H) (w : W) (r : Request) (hm : σ.heap[m]? = some t) (hd : t.Default = none)
    (hmiss : t.Misses r.Method) :
    Mux.ServeHTTP m w r σ = some ([⟨σ.DefaultHandler, w, r⟩], σ)
    ∧ (∀ A : Type, (World.init : World (Handler A)).DefaultHandler
        = DefaultHandlerMethodNotAllowed)
    ∧ (∀ (A : Type) (app : A → ResponseWriter → Request → ResponseWriter)
        (s : World (Handler A)) (p : MuxPtr) (u : Mux (Handler A)) (rw : ResponseWriter)
        (q : Request),
        s.heap[p]? = some u → u.Default = none → u.Misses q.Method →
        s.DefaultHandler = DefaultHandlerMethodNotAllowed →
        (Mux.ServeHTTP p rw q s).map (fun o => perform app o.1)
          = some [rw ++ [WriterCall.WriteHeader 405]])
    ∧ (∀ (A : Type) (app : A → ResponseWriter → Request → ResponseWriter) (h1 : Handler A),
        (serve (some (GET (some h1) World.init)) [] (NewRequest "POST")).map
            (fun o => (perform app o.1).map ResponseWriter.status)
          = some [some 405]) := by
  have key : ∀ (K V : Type) (s : World K) (p : MuxPtr) (u : Mux K) (v : V) (q : Request),
      s.heap[p]? = some u → u.Default = none → u.Misses q.Method →
      Mux.ServeHTTP p v q s = some ([⟨s.DefaultHandler, v, q⟩], s) := by
    intro K V s p u v q hp hu hq
    rw [miss_dispatch s p u v q hp hq, handleDefault_eq s p u v q hp, hu]
    rfl
  refine ⟨key H W σ m t w r hm hd hmiss, fun _ => rfl, ?_, ?_⟩
  · intro A app s p u rw q hp hu hq hs
    rw [key (Handler A) ResponseWriter s p u rw q hp hu hq, hs]
    rfl
  · intro A app h1
    simp [serve, GET, World.alloc, World.init, Mux.ServeHTTP, Mux.handleDefault, NewRequest,
      methodGET, methodHEAD, methodPOST, perform, Handler.ServeHTTP,
      DefaultHandlerMethodNotAllowed, defaultHandleMethodNotAllowed,
      ResponseWriter.WriteHeader, ResponseWriter.status, StatusMethodNotAllowed]

/-- Witness for C6: a POST request against the table with only `Get` set (handler 1) invokes
the global `DefaultHandler`, handler 0. -/
theorem miss_without_fallback_invokes_global_witness :
    Mux.ServeHTTP 0 () (NewRequest "POST")
        { DefaultHandler := 0, heap := [{ Get := some 1 }] }
      = some ([⟨0, (), NewRequest "POST"⟩],
          { DefaultHandler := 0, heap := [{ Get := some 1 }] }) :=
  (miss_without_fallback_invokes_global { DefaultHandler := 0, heap := [{ Get := some 1 }] }
    0 { Get := some 1 } () (NewRequest "POST") (by decide) (by decide)
    (Or.inr ⟨Method.POST, by decide, by decide, by decide⟩)).1

/-- C7 (unrecognized method). For every table and every request whose method string is none
of the nine method constants, `ServeHTTP` takes the miss path `handleDefault`: its single
invocation is of the per-table `Default` when that is not nil and of the global
`DefaultHandler` otherwise, whatever the nine method slots hold. -/
theorem unrecognized_method_misses {H W : Type} (σ : World H) (m : MuxPtr) (t : Mux H)
    (w : W) (r : Request) (hm : σ.heap[m]? = some t)
    (hr : ∀ M : Method, r.Method ≠ M.name) :
    Mux.ServeHTTP m w r σ = Mux.handleDefault m w r σ
    ∧ (∀ d, t.Default = some d → Mux.ServeHTTP m w r σ = some ([⟨d, w, r⟩], σ))
    ∧ (t.Default = none → Mux.ServeHTTP m w r σ = some ([⟨σ.DefaultHandler, w, r⟩], σ)) := by
  have h0 := miss_dispatch σ m t w r hm (Or.inl hr)
  have h1 := handleDefault_eq σ m t w r hm
  refine ⟨h0, ?_, ?_⟩
  · intro d hd
    rw [h0, h1, hd]
    rfl
  · intro hd
    rw [h0, h1, hd]
    rfl

/-- Witness for C7: a request with the lowercase method "get" against the fully set table
of `fullWorld` invokes the `Default` handler 10 and none of the handlers 1 to 9. -/
theorem unrecognized_method_misses_witness :
    Mux.ServeHTTP 0 () (NewRequest "get") fullWorld
      = some ([⟨10, (), NewRequest "get"⟩], fullWorld) :=
  (unrecognized_method_misses fullWorld 0
    { Get := some 1, Head := some 2, Post := some 3, Put := some 4, Delete := some 5,
      Trace := some 6, Options := some 7, Connect := some 8, Patch := some 9,
      Default := some 10 } () (NewRequest "get") (by decide)
    (by intro M; cases M <;> decide)).2.1 10 (by decide)

/-! ## Builders -/

/-- C10 (setter frame). For every slot `S`, every table `t` at address `m` and every handler
`h` (nil included), `m.S(h)` does not panic and returns the pointer `m` itself; afterwards
field `S` of the table at `m` is `h` and its other nine fields are as before, every other
table is as before, no table was allocated and the global `DefaultHandler` is as before. -/
theorem setter_frame {H : Type} (S : Slot) (σ : World H) (m : MuxPtr) (t : Mux H)
    (h : Option H) (hm : σ.heap[m]? = some t) :
    ∃ σ1 t1, S.setter m h σ = some (m, σ1)
      ∧ σ1.heap[m]? = some t1
      ∧ S.field t1 = h
      ∧ (∀ S1 : Slot, S1 ≠ S → S1.field t1 = S1.field t)
      ∧ (∀ m1 : MuxPtr, m1 ≠ m → σ1.heap[m1]? = σ.heap[m1]?)
      ∧ σ1.heap.length = σ.heap.length
      ∧ σ1.DefaultHandler = σ.DefaultHandler := by
  have hne : ∀ (x : Mux H) (m1 : MuxPtr), m1 ≠ m → (σ.heap.set m x)[m1]? = σ.heap[m1]? :=
    fun x m1 h1 => List.getElem?_set_ne (Ne.symm h1)
  rcases S with M | _
  · cases M <;>
      refine ⟨_, _, assign_of_lookup _ hm, lookup_set_self _ hm, rfl, ?_,
        fun m1 h1 => hne _ m1 h1, List.length_set _ _ _, rfl⟩ <;>
      intro S1 hS1 <;>
      rcases S1 with M1 | _ <;>
      first
        | rfl
        | (cases M1 <;> first | rfl | exact absurd rfl hS1)
  · refine ⟨_, _, assign_of_lookup _ hm, lookup_set_self _ hm, rfl, ?_,
      fun m1 h1 => hne _ m1 h1, List.length_set _ _ _, rfl⟩
    intro S1 hS1
    rcases S1 with M1 | _
    · cases M1 <;> rfl
    · exact absurd rfl hS1

/-! ### Setters and constructors as field updates -/

theorem setter_eq_assign {H : Type} (S : Slot) (h : Option H) :
    (fun p => S.setter p h) = fun p (s : World H) => s.assign p (S.update h) := by
  rcases S with M | _
  · cases M <;> rfl
  · rfl

theorem ctor_eq_alloc {H : Type} (S : Slot) (h : Option H) (σ : World H) :
    S.ctor h σ = σ.alloc (S.update h {}) := by
  rcases S with M | _
  · cases M <;> rfl
  · rfl

theorem field_update_self {H : Type} (S : Slot) (h : Option H) (t : Mux H) :
    S.field (S.update h t) = h := by
  rcases S with M | _
  · cases M <;> rfl
  · rfl

theorem field_update_ne {H : Type} (S S1 : Slot) (hne : S1 ≠ S) (h : Option H) (t : Mux H) :
    S1.field (S.update h t) = S1.field t := by
  rcases S with M | _ <;> rcases S1 with M1 | _ <;>
    first
      | exact absurd rfl hne
      | rfl
      | (cases M <;> cases M1 <;> first | rfl | exact absurd rfl hne)
      | (cases M <;> rfl)
      | (cases M1 <;> rfl)

theorem update_comm {H : Type} (A B : Slot) (hAB : A ≠ B) (h1 h2 : Option H) (t : Mux H) :
    B.update h2 (A.update h1 t) = A.update h1 (B.update h2 t) := by
  rcases A with MA | _ <;> rcases B with MB | _ <;>
    first
      | exact absurd rfl hAB
      | (cases MA <;> cases MB <;> first | rfl | exact absurd rfl hAB)
      | (cases MA <;> rfl)
      | (cases MB <;> rfl)

theorem update_update {H : Type} (S : Slot) (h1 h2 : Option H) (t : Mux H) :
    S.update h2 (S.update h1 t) = S.update h2 t := by
  rcases S with M | _
  · cases M <;> rfl
  · rfl

theorem assign_then_assign {H : Type} {σ : World H} {m : MuxPtr} {t : Mux H}
    (f g : Mux H → Mux H) (hm : σ.heap[m]? = some t) :
    chain (σ.assign m f) (fun p s => s.assign p g)
      = some (m, { σ with heap := σ.heap.set m (g (f t)) }) := by
  simp [chain, World.assign, hm, lookup_set_self _ hm]

/-- C8 (chaining order independence). For every two distinct slots `A`, `B` and all handlers
`h1`, `h2` (nil included), the chains `A(h1).B(h2)` and `B(h2).A(h1)`, run in the same world,
return the same pointer and leave the same world: the table built has field `A` equal to
`h1`, field `B` equal to `h2` and every other field nil, so every request is dispatched
identically against the two. The setters of distinct slots also commute on any starting
table: `m.A(h1).B(h2)` and `m.B(h2).A(h1)` return `m` and leave the same world. -/
theorem chaining_order_independent {H W : Type} (A B : Slot) (hAB : A ≠ B)
    (h1 h2 : Option H) (σ : World H) :
    (∃ p σ1 t1,
        chain (some (A.ctor h1 σ)) (fun p => B.setter p h2) = some (p, σ1)
        ∧ chain (some (B.ctor h2 σ)) (fun p => A.setter p h1) = some (p, σ1)
        ∧ σ1.heap[p]? = some t1 ∧ A.field t1 = h1 ∧ B.field t1 = h2
        ∧ ∀ S : Slot, S ≠ A → S ≠ B → S.field t1 = none)
    ∧ (∀ (w : W) (r : Request),
        serve (chain (some (A.ctor h1 σ)) (fun p => B.setter p h2)) w r
          = serve (chain (some (B.ctor h2 σ)) (fun p => A.setter p h1)) w r)
    ∧ (∀ (m : MuxPtr) (t : Mux H), σ.heap[m]? = some t →
        ∃ σ1, chain (A.setter m h1 σ) (fun p => B.setter p h2) = some (m, σ1)
          ∧ chain (B.setter m h2 σ) (fun p => A.setter p h1) = some (m, σ1)) := by
  have hab : chain (some (A.ctor h1 σ)) (fun p => B.setter p h2)
      = some (σ.heap.length,
          { σ with heap := σ.heap ++ [B.update h2 (A.update h1 {})] }) := by
    rw [setter_eq_assign, ctor_eq_alloc, alloc_then_assign]
  have hba : chain (some (B.ctor h2 σ)) (fun p => A.setter p h1)
      = some (σ.heap.length,
          { σ with heap := σ.heap ++ [B.update h2 (A.update h1 {})] }) := by
    rw [setter_eq_assign, ctor_eq_alloc, alloc_then_assign, update_comm A B hAB]
  refine ⟨⟨_, _, _, hab, hba, List.getElem?_concat_length _ _, ?_, ?_, ?_⟩, ?_, ?_⟩
  · rw [field_update_ne B A hAB, field_update_self]
  · rw [field_update_self]
  · intro S hSA hSB
    rw [field_update_ne B S hSB, field_update_ne A S hSA]
    rcases S with M | _
    · cases M <;> rfl
    · rfl
  · intro w r
    rw [hab, hba]
  · intro m t hm
    refine ⟨{ σ with heap := σ.heap.set m (B.update h2 (A.update h1 t)) }, ?_, ?_⟩
    · have e : A.setter m h1 σ = σ.assign m (A.update h1) :=
        congrFun (congrFun (setter_eq_assign A h1) m) σ
      rw [e, setter_eq_assign, assign_then_assign _ _ hm]
    · have e : B.setter m h2 σ = σ.assign m (B.update h2) :=
        congrFun (congrFun (setter_eq_assign B h2) m) σ
      rw [e, setter_eq_assign, assign_then_assign _ _ hm, update_comm A B hAB]

/-- Witness for C8: `GET(h1).POST(h2)` and `POST(h2).GET(h1)`, with handlers 1 and 2, return
the same pointer and world. -/
theorem chaining_order_independent_witness :
    Slot.method Method.GET ≠ Slot.method Method.POST
    ∧ ∃ p σ1 t1,
        chain (some (GET (some 1) emptyWorld)) (fun p => Mux.POST p (some 2)) = some (p, σ1)
        ∧ chain (some (POST (some 2) emptyWorld)) (fun p => Mux.GET p (some 1)) = some (p, σ1)
        ∧ σ1.heap[p]? = some t1 ∧ t1.Get = some 1 ∧ t1.Post = some 2
        ∧ ∀ S : Slot, S ≠ Slot.method Method.GET → S ≠ Slot.method Method.POST →
            S.field t1 = none :=
  ⟨by decide,
    (chaining_order_independent (W := Unit) (Slot.method Method.GET) (Slot.method Method.POST)
      (by decide) (some 1) (some 2) emptyWorld).1⟩

/-- C9 (last write wins). For every slot `S`, every table at address `m` and all handlers
`h1`, `h2` (nil included), `m.S(h1).S(h2)` returns the pointer and leaves the world that
`m.S(h2)` does; likewise `S(h1).S(h2)` builds what `S(h2)` builds. In particular a GET request
against `GET(h1).GET(g)` performs the single invocation `g.ServeHTTP(w, r)`. -/
theorem last_write_wins {H W : Type} (S : Slot) (σ : World H) (m : MuxPtr) (t : Mux H)
    (h1 h2 : Option H) (hm : σ.heap[m]? = some t) :
    (∃ σ1, S.setter m h2 σ = some (m, σ1)
        ∧ chain (S.setter m h1 σ) (fun p => S.setter p h2) = some (m, σ1))
    ∧ chain (some (S.ctor h1 σ)) (fun p => S.setter p h2) = some (S.ctor h2 σ)
    ∧ ∀ (g : H) (w : W) (r : Request), r.Method = methodGET →
        serve (chain (some (GET h1 σ)) (fun p => Mux.GET p (some g))) w r
          = some ([⟨g, w, r⟩], (GET (some g) σ).2) := by
  have e1 : ∀ h : Option H, S.setter m h σ = σ.assign m (S.update h) :=
    fun h => congrFun (congrFun (setter_eq_assign S h) m) σ
  refine ⟨⟨{ σ with heap := σ.heap.set m (S.update h2 t) }, ?_, ?_⟩, ?_, ?_⟩
  · rw [e1, assign_of_lookup _ hm]
  · rw [e1, setter_eq_assign, assign_then_assign _ _ hm, update_update]
  · rw [setter_eq_assign, ctor_eq_alloc, ctor_eq_alloc, alloc_then_assign, update_update]
    rfl
  · intro g w r hr
    simp [GET, Mux.GET, chain, World.alloc, World.assign, serve, Mux.ServeHTTP, hr]

/-- Witness for C9: a GET request against `GET(h1).GET(h2)`, with handlers 1 and 2, built in
`fullWorld`, invokes handler 2. -/
theorem last_write_wins_witness :
    serve (chain (some (GET (some 1) fullWorld)) (fun p => Mux.GET p (some 2))) ()
        (NewRequest "GET")
      = some ([⟨2, (), NewRequest "GET"⟩], (GET (some 2) fullWorld).2) :=
  (last_write_wins (Slot.method Method.GET) fullWorld 0
    { Get := some 1, Head := some 2, Post := some 3, Put := some 4, Delete := some 5,
      Trace := some 6, Options := some 7, Connect := some 8, Patch := some 9,
      Default := some 10 } (some 1) (some 2) (by decide)).2.2 2 () (NewRequest "GET")
    (by decide)

/-- Witness for C10: `m.PUT(h)` with handler 11 on the fully set table of `fullWorld`
returns `m` and changes the field `Put` only. -/
theorem setter_frame_witness :
    ∃ σ1 t1, Mux.PUT 0 (some 11) fullWorld = some (0, σ1)
      ∧ σ1.heap[0]? = some t1
      ∧ t1.Put = some 11
      ∧ (∀ S1 : Slot, S1 ≠ Slot.method Method.PUT → S1.field t1
          = S1.field { Get := some 1, Head := some 2, Post := some 3, Put := some 4,
                       Delete := some 5, Trace := some 6, Options := some 7,
                       Connect := some 8, Patch := some 9, Default := some 10 })
      ∧ (∀ m1 : MuxPtr, m1 ≠ 0 → σ1.heap[m1]? = fullWorld.heap[m1]?)
      ∧ σ1.heap.length = fullWorld.heap.length
      ∧ σ1.DefaultHandler = fullWorld.DefaultHandler :=
  setter_frame (Slot.method Method.PUT) fullWorld 0
    { Get := some 1, Head := some 2, Post := some 3, Put := some 4, Delete := some 5,
      Trace := some 6, Options := some 7, Connect := some 8, Patch := some 9,
      Default := some 10 } (some 11) (by decide)

/-! ## Dispatch: the three ways a request is served -/

theorem ServeHTTP_hit {H W : Type} (M : Method) (σ : World H) (m : MuxPtr) (t : Mux H)
    (h : H) (w : W) (r : Request) (hm : σ.heap[m]? = some t) (hr : r.Method = M.name)
    (hs : M.field t = some h) :
    Mux.ServeHTTP m w r σ = some ([⟨h, w, r⟩], σ) := by
  cases M <;>
    simp [Method.field] at hs <;>
    simp [Method.name] at hr <;>
    simp [Mux.ServeHTTP, hm, hr, hs, methodGET, methodHEAD, methodPOST, methodPUT,
      methodDELETE, methodTRACE, methodOPTIONS, methodCONNECT, methodPATCH]

theorem ServeHTTP_delegate {H W : Type} (σ : World H) (m : MuxPtr) (t : Mux H) (g : H)
    (w : W) (r : Request) (hm : σ.heap[m]? = some t) (hr : r.Method = methodHEAD)
    (hh : t.Head = none) (hg : t.Get = some g) :
    Mux.ServeHTTP m w r σ = some ([⟨g, w, r⟩], σ) := by
  simp [Mux.ServeHTTP, hm, hr, hh, hg, methodGET, methodHEAD]

theorem ServeHTTP_miss {H W : Type} (σ : World H) (m : MuxPtr) (t : Mux H) (w : W)
    (r : Request) (hm : σ.heap[m]? = some t) (hmiss : t.Misses r.Method) :
    Mux.ServeHTTP m w r σ = some ([⟨t.Default.getD σ.DefaultHandler, w, r⟩], σ) := by
  rw [miss_dispatch σ m t w r hm hmiss, handleDefault_eq σ m t w r hm]

/-- Every method string is served by a table in exactly one of three ways: a hit on the
slot of the method, the delegation of HEAD to `Get`, or a miss. -/
theorem classify {H : Type} (t : Mux H) (method : String) :
    (∃ M : Method, method = M.name ∧ ∃ h, M.field t = some h)
    ∨ (method = methodHEAD ∧ t.Head = none ∧ ∃ g, t.Get = some g)
    ∨ t.Misses method := by
  by_cases hrec : ∃ M : Method, method = M.name
  · obtain ⟨M, hM⟩ := hrec
    by_cases hf : M.field t = none
    case neg =>
      obtain ⟨h, hf1⟩ := Option.ne_none_iff_exists.mp hf
      exact Or.inl ⟨M, hM, h, hf1.symm⟩
    case pos =>
      by_cases hH : M = Method.HEAD
      · subst hH
        by_cases hg : t.Get = none
        · exact Or.inr (Or.inr (Or.inr ⟨Method.HEAD, hM, hf, fun hc => hc.2 hg⟩))
        · obtain ⟨g, hg1⟩ := Option.ne_none_iff_exists.mp hg
          exact Or.inr (Or.inl ⟨hM, hf, g, hg1.symm⟩)
      · exact Or.inr (Or.inr (Or.inr ⟨M, hM, hf, fun hc => hH hc.1⟩))
  · exact Or.inr (Or.inr (Or.inl fun M hM => hrec ⟨M, hM⟩))

/-- The handler a dispatch invokes is fixed by the table, the global `DefaultHandler` and
the method string; the dispatch performs that one invocation on the writer and request it
received and leaves the world as it was. -/
theorem dispatch_selects {H : Type} (D : H) (t : Mux H) (method : String) :
    ∃ h : H, ∀ (W : Type) (σ : World H) (m : MuxPtr) (w : W) (r : Request),
      σ.heap[m]? = some t → σ.DefaultHandler = D → r.Method = method →
      Mux.ServeHTTP m w r σ = some ([⟨h, w, r⟩], σ) := by
  rcases classify t method with ⟨M, hM, h, hf⟩ | ⟨hH, hh, g, hg⟩ | hmiss
  · exact ⟨h, fun W σ m w r hm _ hr => ServeHTTP_hit M σ m t h w r hm (hr.trans hM) hf⟩
  · exact ⟨g, fun W σ m w r hm _ hr => ServeHTTP_delegate σ m t g w r hm (hr.trans hH) hh hg⟩
  · refine ⟨t.Default.getD D, fun W σ m w r hm hD hr => ?_⟩
    rw [← hD]
    exact ServeHTTP_miss σ m t w r hm (hr ▸ hmiss)

/-! ## Standalone constructors -/

/-- C11 (standalone constructors). For every slot `S` (the nine methods and `Default`) and
every handler `h` (nil included), the standalone constructor `S(h)` allocates a new table at
an address that held none, changes nothing else, and the new table has field `S` equal
to `h` and its other nine fields nil. Equivalently `S(h)` is the empty table `&Mux{}` with the
setter `S(h)` applied. -/
theorem standalone_constructor {H : Type} (S : Slot) (h : Option H) (σ : World H) :
    ∃ t1 : Mux H,
      S.ctor h σ = (σ.heap.length, { σ with heap := σ.heap ++ [t1] })
      ∧ σ.heap[σ.heap.length]? = none
      ∧ (S.ctor h σ).2.heap[(S.ctor h σ).1]? = some t1
      ∧ S.field t1 = h
      ∧ (∀ S1 : Slot, S1 ≠ S → S1.field t1 = none)
      ∧ some (S.ctor h σ) = chain (some (σ.alloc {})) (fun p => S.setter p h) := by
  refine ⟨S.update h {}, ctor_eq_alloc S h σ, List.getElem?_eq_none (Nat.le_refl _), ?_,
    field_update_self S h {}, ?_, ?_⟩
  · rw [ctor_eq_alloc]
    exact List.getElem?_concat_length _ _
  · intro S1 hS1
    rw [field_update_ne S S1 hS1]
    rcases S1 with M | _
    · cases M <;> rfl
    · rfl
  · rw [setter_eq_assign, alloc_then_assign, ctor_eq_alloc]
    rfl

/-! ## Dispatch: one invocation -/

/-- C12 (exactly one invocation, no failure). For every table and every request, `ServeHTTP`
does not panic and performs exactly one handler invocation, on the writer and request it
received; the dispatcher makes no call on the writer, so the state of the writer afterwards
is what that one handler makes of the writer as received. -/
theorem exactly_one_invocation {H W : Type} (σ : World H) (m : MuxPtr) (t : Mux H) (w : W)
    (r : Request) (hm : σ.heap[m]? = some t) :
    (∃ h, Mux.ServeHTTP m w r σ = some ([⟨h, w, r⟩], σ))
    ∧ (∀ is σ1, Mux.ServeHTTP m w r σ = some (is, σ1) → is.length = 1)
    ∧ (∀ (A : Type) (app : A → ResponseWriter → Request → ResponseWriter)
        (s : World (Handler A)) (p : MuxPtr) (u : Mux (Handler A)) (rw : ResponseWriter)
        (q : Request), s.heap[p]? = some u →
        ∃ h, (Mux.ServeHTTP p rw q s).map (fun o => perform app o.1)
          = some [Handler.ServeHTTP app h rw q]) := by
  have one : ∀ (K V : Type) (s : World K) (p : MuxPtr) (u : Mux K) (v : V) (q : Request),
      s.heap[p]? = some u → ∃ h, Mux.ServeHTTP p v q s = some ([⟨h, v, q⟩], s) := by
    intro K V s p u v q hp
    obtain ⟨h, hh⟩ := dispatch_selects s.DefaultHandler u q.Method
    exact ⟨h, hh V s p v q hp rfl rfl⟩
  obtain ⟨h, hh⟩ := one H W σ m t w r hm
  refine ⟨⟨h, hh⟩, ?_, ?_⟩
  · intro is σ1 he
    rw [hh] at he
    cases he
    rfl
  · intro A app s p u rw q hp
    obtain ⟨k, hk⟩ := one (Handler A) ResponseWriter s p u rw q hp
    exact ⟨k, by rw [hk]; rfl⟩

/-- Witness for C12: a request with the unrecognized method "UNKNOWN" against the fully set
table of `fullWorld` performs one invocation. -/
theorem exactly_one_invocation_witness :
    ∃ h, Mux.ServeHTTP 0 () (NewRequest "UNKNOWN") fullWorld
      = some ([⟨h, (), NewRequest "UNKNOWN"⟩], fullWorld) :=
  (exactly_one_invocation fullWorld 0
    { Get := some 1, Head := some 2, Post := some 3, Put := some 4, Delete := some 5,
      Trace := some 6, Options := some 7, Connect := some 8, Patch := some 9,
      Default := some 10 } () (NewRequest "UNKNOWN") (by decide)).1

/-! ## Nil handlers -/

theorem set_of_lookup {α : Type} {l : List α} {m : Nat} {t : α} (hm : l[m]? = some t) :
    l.set m t = l := by
  induction l generalizing m with
  | nil => rfl
  | cons a l ih =>
    cases m with
    | zero =>
      simp at hm
      simp [hm]
    | succ n =>
      simp at hm
      simp [ih hm]

theorem update_of_field {H : Type} (S : Slot) (t : Mux H) : S.update (S.field t) t = t := by
  rcases S with M | _
  · cases M <;> rfl
  · rfl

theorem misses_update_Default {H : Type} (h : Option H) (t : Mux H) (method : String)
    (hmiss : t.Misses method) : (Slot.Default.update h t).Misses method := by
  rcases hmiss with hun | ⟨M, hM, hf, hdel⟩
  · exact Or.inl hun
  · refine Or.inr ⟨M, hM, ?_, hdel⟩
    cases M <;> exact hf

/-- C13, as stated, fails: on the table with only `Get` set (handler 1), `m.HEAD(nil)`
leaves the table as it was, and a HEAD request against it does not take the miss path,
which would invoke the global `DefaultHandler` 0; it invokes the Get handler 1. -/
theorem nil_HEAD_with_GET_set_does_not_miss :
    Mux.HEAD 0 none getOnlyWorld = some (0, getOnlyWorld)
    ∧ Mux.ServeHTTP 0 () (NewRequest methodHEAD) getOnlyWorld
        = some ([⟨1, (), NewRequest methodHEAD⟩], getOnlyWorld)
    ∧ Mux.handleDefault 0 () (NewRequest methodHEAD) getOnlyWorld
        = some ([⟨0, (), NewRequest methodHEAD⟩], getOnlyWorld)
    ∧ Mux.ServeHTTP 0 () (NewRequest methodHEAD) getOnlyWorld
        ≠ Mux.handleDefault 0 () (NewRequest methodHEAD) getOnlyWorld := by
  decide

/-- C13 (amended). For every method `M`, every table `t` at address `m` and every request
with method `M`: `m.M(nil)` returns `m` and leaves slot `M` nil and every other field as it
was, so when slot `M` was nil before, the world is the one before the call; the request then
takes the miss path (the per-table `Default` when not nil, else the global `DefaultHandler`),
unless `M` is HEAD and `Get` holds a handler `g`, in which case it invokes `g`. The
standalone `M(nil)` builds the empty table, against which the request invokes the global
`DefaultHandler`. Likewise `m.DEFAULT(nil)` leaves `Default` nil, so that every request that
misses invokes the global `DefaultHandler`, and `DEFAULT(nil)` builds the empty table. -/
theorem nil_handler_is_unset {H W : Type} (M : Method) (σ : World H) (m : MuxPtr)
    (t : Mux H) (w : W) (r : Request) (hm : σ.heap[m]? = some t) (hr : r.Method = M.name) :
    (∃ σ1 t1, M.setter m none σ = some (m, σ1) ∧ σ1.heap[m]? = some t1
        ∧ M.field t1 = none
        ∧ (∀ S1 : Slot, S1 ≠ Slot.method M → S1.field t1 = S1.field t)
        ∧ (M.field t = none → σ1 = σ)
        ∧ (¬ (M = Method.HEAD ∧ t.Get ≠ none) →
            Mux.ServeHTTP m w r σ1 = Mux.handleDefault m w r σ1
            ∧ Mux.ServeHTTP m w r σ1
                = some ([⟨t.Default.getD σ.DefaultHandler, w, r⟩], σ1))
        ∧ (∀ g, M = Method.HEAD → t.Get = some g →
            Mux.ServeHTTP m w r σ1 = some ([⟨g, w, r⟩], σ1)))
    ∧ M.ctor none σ = σ.alloc {}
    ∧ serve (some (M.ctor none σ)) w r
        = some ([⟨σ.DefaultHandler, w, r⟩], (M.ctor none σ).2)
    ∧ (∃ σ2 t2, Mux.DEFAULT m none σ = some (m, σ2) ∧ σ2.heap[m]? = some t2
        ∧ t2.Default = none
        ∧ (∀ S1 : Slot, S1 ≠ Slot.Default → S1.field t2 = S1.field t)
        ∧ (t.Default = none → σ2 = σ)
        ∧ (∀ q : Request, t.Misses q.Method →
            Mux.ServeHTTP m w q σ2 = some ([⟨σ.DefaultHandler, w, q⟩], σ2)))
    ∧ DEFAULT none σ = σ.alloc {}
    ∧ (∀ q : Request, serve (some (DEFAULT none σ)) w q
        = some ([⟨σ.DefaultHandler, w, q⟩], (DEFAULT none σ).2)) := by
  have hset : ∀ (S : Slot), S.setter m none σ
      = some (m, { σ with heap := σ.heap.set m (S.update none t) }) := by
    intro S
    have e : S.setter m none σ = σ.assign m (S.update none) :=
      congrFun (congrFun (setter_eq_assign S none) m) σ
    rw [e, assign_of_lookup _ hm]
  have hsame : ∀ (S : Slot), S.field t = none →
      ({ σ with heap := σ.heap.set m (S.update none t) } : World H) = σ := by
    intro S hS
    have e : S.update none t = t := by
      rw [← hS]
      exact update_of_field S t
    rw [e, set_of_lookup hm]
  have hempty : ∀ (S : Slot), S.ctor none σ = σ.alloc {} := by
    intro S
    rw [ctor_eq_alloc]
    rcases S with M1 | _
    · cases M1 <;> rfl
    · rfl
  have hserve : ∀ q : Request, serve (some (σ.alloc ({} : Mux H))) w q
      = some ([⟨σ.DefaultHandler, w, q⟩], (σ.alloc ({} : Mux H)).2) := by
    intro q
    have hmiss : ({} : Mux H).Misses q.Method := by
      rcases classify ({} : Mux H) q.Method with ⟨M1, _, h, hf⟩ | ⟨_, _, g, hg⟩ | hmiss
      · cases M1 <;> cases hf
      · cases hg
      · exact hmiss
    exact ServeHTTP_miss (σ.alloc ({} : Mux H)).2 (σ.alloc ({} : Mux H)).1 {} w q
      (List.getElem?_concat_length _ _) hmiss
  refine ⟨⟨_, _, hset (Slot.method M), lookup_set_self _ hm,
      field_update_self (Slot.method M) none t,
      fun S1 hS1 => field_update_ne (Slot.method M) S1 hS1 none t,
      hsame (Slot.method M), ?_, ?_⟩,
    hempty (Slot.method M), ?_,
    ⟨_, _, hset Slot.Default, lookup_set_self _ hm, rfl,
      fun S1 hS1 => field_update_ne Slot.Default S1 hS1 none t, hsame Slot.Default, ?_⟩,
    hempty Slot.Default, ?_⟩
  · intro hdel
    have hmiss : ((Slot.method M).update none t).Misses r.Method := by
      refine Or.inr ⟨M, hr, field_update_self (Slot.method M) none t, ?_⟩
      rintro ⟨hM, hg⟩
      subst hM
      exact hdel ⟨rfl, hg⟩
    have hdef : ((Slot.method M).update none t).Default = t.Default :=
      field_update_ne (Slot.method M) Slot.Default (by simp) none t
    refine ⟨miss_dispatch _ m _ w r (lookup_set_self _ hm) hmiss, ?_⟩
    rw [ServeHTTP_miss _ m _ w r (lookup_set_self _ hm) hmiss, hdef]
  · intro g hM hg
    subst hM
    exact ServeHTTP_delegate _ m _ g w r (lookup_set_self _ hm) hr rfl hg
  · have e : M.ctor none σ = σ.alloc {} := hempty (Slot.method M)
    rw [e]
    exact hserve r
  · intro q hq
    exact ServeHTTP_miss _ m _ w q (lookup_set_self _ hm) (misses_update_Default none t _ hq)
  · intro q
    have e : DEFAULT none σ = σ.alloc ({} : Mux H) := hempty Slot.Default
    rw [e]
    exact hserve q

/-- Witness for C13 (amended): `GET(nil)` is the empty table, and a GET request against it
invokes the global `DefaultHandler`, handler 0. -/
theorem nil_handler_is_unset_witness :
    GET none fullWorld = fullWorld.alloc {}
    ∧ serve (some (GET none fullWorld)) () (NewRequest "GET")
        = some ([⟨0, (), NewRequest "GET"⟩], (GET none fullWorld).2) :=
  ⟨(nil_handler_is_unset Method.GET fullWorld 0
      { Get := some 1, Head := some 2, Post := some 3, Put := some 4, Delete := some 5,
        Trace := some 6, Options := some 7, Connect := some 8, Patch := some 9,
        Default := some 10 } () (NewRequest "GET") (by decide) (by decide)).2.1,
   (nil_handler_is_unset Method.GET fullWorld 0
      { Get := some 1, Head := some 2, Post := some 3, Put := some 4, Delete := some 5,
        Trace := some 6, Options := some 7, Connect := some 8, Patch := some 9,
        Default := some 10 } () (NewRequest "GET") (by decide) (by decide)).2.2.1⟩

/-! ## The fallback-only table and the built-in handler -/

/-- C14 (fallback-only table). For every handler `h` and every request, whatever its method
string, dispatching against `DEFAULT(h)` performs the single invocation
`h.ServeHTTP(w, r)`. -/
theorem fallback_only_table {H W : Type} (h : H) (σ : World H) (w : W) (r : Request) :
    serve (some (DEFAULT (some h) σ)) w r
      = some ([⟨h, w, r⟩], (DEFAULT (some h) σ).2) := by
  have hmiss : ({ Default := some h } : Mux H).Misses r.Method := by
    rcases classify ({ Default := some h } : Mux H) r.Method with
      ⟨M1, _, k, hf⟩ | ⟨_, _, g, hg⟩ | hmiss
    · cases M1 <;> cases hf
    · cases hg
    · exact hmiss
  exact ServeHTTP_miss (DEFAULT (some h) σ).2 (DEFAULT (some h) σ).1 { Default := some h } w r
    (List.getElem?_concat_length _ _) hmiss

/-- C15 (built-in handler). For every request and every writer, invoking
`DefaultHandlerMethodNotAllowed` makes the writer receive the one call `WriteHeader(405)`
(`http.StatusMethodNotAllowed`) and nothing else: no body is written, a fresh writer ends
with status 405, and the calls made are the same for any two requests. -/
theorem builtin_handler_writes_405 {A : Type}
    (app : A → ResponseWriter → Request → ResponseWriter) (w : ResponseWriter)
    (r : Request) :
    Handler.ServeHTTP app DefaultHandlerMethodNotAllowed w r
      = w ++ [WriterCall.WriteHeader 405]
    ∧ defaultHandleMethodNotAllowed w r = w ++ [WriterCall.WriteHeader 405]
    ∧ StatusMethodNotAllowed = 405
    ∧ ResponseWriter.body (Handler.ServeHTTP app DefaultHandlerMethodNotAllowed w r)
        = ResponseWriter.body w
    ∧ ResponseWriter.status (Handler.ServeHTTP app DefaultHandlerMethodNotAllowed [] r)
        = some 405
    ∧ ResponseWriter.body (Handler.ServeHTTP app DefaultHandlerMethodNotAllowed [] r) = ""
    ∧ (∀ r1 : Request, Handler.ServeHTTP app DefaultHandlerMethodNotAllowed w r1
        = Handler.ServeHTTP app DefaultHandlerMethodNotAllowed w r) := by
  have hbody : ∀ (v : ResponseWriter) (c : Nat),
      ResponseWriter.body (v ++ [WriterCall.WriteHeader c]) = ResponseWriter.body v := by
    intro v c
    induction v with
    | nil => rfl
    | cons a v ih =>
      cases a with
      | WriteHeader k => simpa [ResponseWriter.body] using ih
      | Write p => simp [ResponseWriter.body, ih]
  refine ⟨rfl, rfl, rfl, hbody w 405, rfl, rfl, fun _ => rfl⟩

/-- C16 (literal/chain equivalence). For all handlers `g`, `p`, `d` (nil included), the chain
`GET(g).POST(p).PATCH(p).DEFAULT(d)` returns the pointer and leaves the world that
allocating the struct literal `&Mux{Get: g, Post: p, Patch: p, Default: d}` does; hence
every request is dispatched identically against the two. -/
theorem literal_equals_chain {H W : Type} (g p d : Option H) (σ : World H) :
    chain (chain (chain (some (GET g σ)) (fun m => Mux.POST m p)) (fun m => Mux.PATCH m p))
        (fun m => Mux.DEFAULT m d)
      = some (σ.alloc { Get := g, Post := p, Patch := p, Default := d })
    ∧ ∀ (w : W) (r : Request),
        serve (chain (chain (chain (some (GET g σ)) (fun m => Mux.POST m p))
            (fun m => Mux.PATCH m p)) (fun m => Mux.DEFAULT m d)) w r
          = serve (some (σ.alloc { Get := g, Post := p, Patch := p, Default := d })) w r := by
  have e : chain (chain (chain (some (GET g σ)) (fun m => Mux.POST m p))
        (fun m => Mux.PATCH m p)) (fun m => Mux.DEFAULT m d)
      = some (σ.alloc { Get := g, Post := p, Patch := p, Default := d }) := by
    simp [chain, GET, Mux.POST, Mux.PATCH, Mux.DEFAULT, World.alloc, World.assign]
  exact ⟨e, fun w r => by rw [e]⟩

/-! ## Dispatch: what the handler receives and what the choice depends on -/

/-- C17 (pass-through). For every table and every request, every invocation `ServeHTTP`
performs (there is one) is handed the writer and the request that `ServeHTTP` received.
In particular a HEAD request delegated to the Get handler `g` reaches `g` with method "HEAD":
against `GET(succHandler)` a HEAD request on a fresh writer yields `statusHEAD`, which
differs from `statusGET`. -/
theorem pass_through {H W : Type} (σ : World H) (m : MuxPtr) (t : Mux H) (w : W)
    (r : Request) (hm : σ.heap[m]? = some t) :
    (∃ is, Mux.ServeHTTP m w r σ = some (is, σ) ∧ is ≠ [] ∧ ∀ i ∈ is, i.w = w ∧ i.r = r)
    ∧ (∀ g, r.Method = methodHEAD → t.Head = none → t.Get = some g →
        ∃ i : Invocation H W, Mux.ServeHTTP m w r σ = some ([i], σ)
          ∧ i.handler = g ∧ i.w = w ∧ i.r = r ∧ i.r.Method = methodHEAD)
    ∧ (serve (some (GET (some (Handler.app TestHandler.succ)) World.init)) []
          (NewRequest "HEAD")).map (fun o => (perform testApp o.1).map ResponseWriter.status)
        = some [some statusHEAD]
    ∧ statusHEAD ≠ statusGET := by
  obtain ⟨h, hh⟩ := dispatch_selects σ.DefaultHandler t r.Method
  have e := hh W σ m w r hm rfl rfl
  refine ⟨⟨_, e, by simp, ?_⟩, ?_, ?_, by decide⟩
  · intro i hi
    simp at hi
    subst hi
    exact ⟨rfl, rfl⟩
  · intro g hr hhd hg
    exact ⟨⟨g, w, r⟩, ServeHTTP_delegate σ m t g w r hm hr hhd hg, rfl, rfl, rfl, hr⟩
  · decide

/-- Witness for C17: a HEAD request against the table with only `Get` set (handler 1) hands
the Get handler the request with method "HEAD". -/
theorem pass_through_witness :
    ∃ i : Invocation Nat Unit,
      Mux.ServeHTTP 0 () (NewRequest "HEAD") getOnlyWorld = some ([i], getOnlyWorld)
      ∧ i.handler = 1 ∧ i.w = () ∧ i.r = NewRequest "HEAD" ∧ i.r.Method = methodHEAD :=
  (pass_through getOnlyWorld 0 { Get := some 1 } () (NewRequest "HEAD") (by decide)).2.1 1
    (by decide) (by decide) (by decide)

/-- C18 (dispatch on method only). For every table, every value of the global
`DefaultHandler` and every two requests with the same method string, whatever their URL,
header and body, and whatever writers they come with, `ServeHTTP` invokes the same handler;
the same holds across worlds and addresses that hold the same table and the same
`DefaultHandler`: the handler is fixed by the table, the global and the method string. -/
theorem dispatch_on_method_only {H W : Type} (σ1 σ2 : World H) (m1 m2 : MuxPtr) (t : Mux H)
    (w1 w2 : W) (r1 r2 : Request) (hm1 : σ1.heap[m1]? = some t)
    (hm2 : σ2.heap[m2]? = some t) (hD : σ1.DefaultHandler = σ2.DefaultHandler)
    (hr : r1.Method = r2.Method) :
    ∃ h, Mux.ServeHTTP m1 w1 r1 σ1 = some ([⟨h, w1, r1⟩], σ1)
      ∧ Mux.ServeHTTP m2 w2 r2 σ2 = some ([⟨h, w2, r2⟩], σ2) := by
  obtain ⟨h, hh⟩ := dispatch_selects σ1.DefaultHandler t r1.Method
  exact ⟨h, hh W σ1 m1 w1 r1 hm1 rfl rfl, hh W σ2 m2 w2 r2 hm2 hD.symm hr.symm⟩

/-- Witness for C18: two POST requests with different URL, header and body against the
fully set table of `fullWorld` invoke the same handler. -/
theorem dispatch_on_method_only_witness :
    NewRequest "POST" ≠ postFoo4
    ∧ ∃ h, Mux.ServeHTTP 0 () (NewRequest "POST") fullWorld
        = some ([⟨h, (), NewRequest "POST"⟩], fullWorld)
      ∧ Mux.ServeHTTP 0 () postFoo4 fullWorld = some ([⟨h, (), postFoo4⟩], fullWorld) :=
  ⟨by decide,
    dispatch_on_method_only fullWorld fullWorld 0 0
      { Get := some 1, Head := some 2, Post := some 3, Put := some 4, Delete := some 5,
        Trace := some 6, Options := some 7, Connect := some 8, Patch := some 9,
        Default := some 10 } () () (NewRequest "POST") postFoo4
      (by decide) (by decide) rfl (by decide)⟩

/-- C19 (dispatch is read-only). For every table and every request, the world `ServeHTTP`
(and `handleDefault`) leaves is the world it started in: all fields of every table and the
global `DefaultHandler` are unchanged. So a second dispatch with the same method string,
run in the world the first one left, invokes the same handler. -/
theorem dispatch_is_read_only {H W : Type} (σ : World H) (m : MuxPtr) (t : Mux H) (w : W)
    (r : Request) (hm : σ.heap[m]? = some t) :
    (∀ is σ1, Mux.ServeHTTP m w r σ = some (is, σ1) → σ1 = σ)
    ∧ (∀ is σ1, Mux.handleDefault m w r σ = some (is, σ1) → σ1 = σ)
    ∧ ∃ h is σ1, Mux.ServeHTTP m w r σ = some (is, σ1)
        ∧ is = [⟨h, w, r⟩]
        ∧ σ1.heap = σ.heap ∧ σ1.heap[m]? = some t
        ∧ σ1.DefaultHandler = σ.DefaultHandler
        ∧ ∀ (w2 : W) (r2 : Request), r2.Method = r.Method →
            Mux.ServeHTTP m w2 r2 σ1 = some ([⟨h, w2, r2⟩], σ1) := by
  obtain ⟨h, hh⟩ := dispatch_selects σ.DefaultHandler t r.Method
  have e := hh W σ m w r hm rfl rfl
  refine ⟨?_, ?_, h, _, σ, e, rfl, rfl, hm, rfl, fun w2 r2 hr2 => hh W σ m w2 r2 hm rfl hr2⟩
  · intro is σ1 he
    rw [e] at he
    cases he
    rfl
  · intro is σ1 he
    rw [handleDefault_eq σ m t w r hm] at he
    cases he
    rfl

/-- Witness for C19: a DELETE request against the fully set table of `fullWorld` leaves
`fullWorld` as it was. -/
theorem dispatch_is_read_only_witness :
    ∃ h is σ1, Mux.ServeHTTP 0 () (NewRequest "DELETE") fullWorld = some (is, σ1)
      ∧ is = [⟨h, (), NewRequest "DELETE"⟩]
      ∧ σ1.heap = fullWorld.heap
      ∧ σ1.DefaultHandler = fullWorld.DefaultHandler :=
  match (dispatch_is_read_only fullWorld 0
    { Get := some 1, Head := some 2, Post := some 3, Put := some 4, Delete := some 5,
      Trace := some 6, Options := some 7, Connect := some 8, Patch := some 9,
      Default := some 10 } () (NewRequest "DELETE") (by decide)).2.2 with
  | ⟨h, is, σ1, e, his, hheap, _, hD, _⟩ => ⟨h, is, σ1, e, his, hheap, hD⟩

/-- C20 (slot isolation). For every method `M` and every request with method `M`, two
tables that agree on slot `M` and on `Default` (and, when `M` is HEAD, on `Get`) are
dispatched to the same handler, however their other slots differ. That handler is the one
in slot `M`; or, for HEAD with `Head` nil, the one in `Get`; or, on a miss, the per-table
`Default`, or the global `DefaultHandler` when `Default` is nil. So a handler that is only
stored in another slot is not invoked. -/
theorem slot_isolation {H W : Type} (M : Method) (σ : World H) (m1 m2 : MuxPtr)
    (t1 t2 : Mux H) (w : W) (r : Request) (hm1 : σ.heap[m1]? = some t1)
    (hm2 : σ.heap[m2]? = some t2) (hr : r.Method = M.name)
    (hS : M.field t1 = M.field t2) (hdef : t1.Default = t2.Default)
    (hget : M = Method.HEAD → t1.Get = t2.Get) :
    ∃ h, Mux.ServeHTTP m1 w r σ = some ([⟨h, w, r⟩], σ)
      ∧ Mux.ServeHTTP m2 w r σ = some ([⟨h, w, r⟩], σ)
      ∧ (M.field t1 = some h
          ∨ (M = Method.HEAD ∧ t1.Head = none ∧ t1.Get = some h)
          ∨ (M.field t1 = none ∧ ¬ (M = Method.HEAD ∧ t1.Get ≠ none)
              ∧ (t1.Default = some h ∨ (t1.Default = none ∧ h = σ.DefaultHandler)))) := by
  have miss : ∀ (k : Mux H), M.field k = none → ¬ (M = Method.HEAD ∧ k.Get ≠ none) →
      k.Misses r.Method := fun k hk hdel => Or.inr ⟨M, hr, hk, hdel⟩
  have onMiss : M.field t1 = none → ¬ (M = Method.HEAD ∧ t1.Get ≠ none) →
      ¬ (M = Method.HEAD ∧ t2.Get ≠ none) →
      ∃ h, Mux.ServeHTTP m1 w r σ = some ([⟨h, w, r⟩], σ)
        ∧ Mux.ServeHTTP m2 w r σ = some ([⟨h, w, r⟩], σ)
        ∧ (t1.Default = some h ∨ (t1.Default = none ∧ h = σ.DefaultHandler)) := by
    intro hf hdel1 hdel2
    refine ⟨t1.Default.getD σ.DefaultHandler,
      ServeHTTP_miss σ m1 t1 w r hm1 (miss t1 hf hdel1), ?_, ?_⟩
    · rw [hdef]
      exact ServeHTTP_miss σ m2 t2 w r hm2 (miss t2 (hS ▸ hf) hdel2)
    · cases hd : t1.Default with
      | none => exact Or.inr ⟨rfl, rfl⟩
      | some d => exact Or.inl rfl
  by_cases hf : M.field t1 = none
  case neg =>
    obtain ⟨h, hh⟩ := Option.ne_none_iff_exists.mp hf
    exact ⟨h, ServeHTTP_hit M σ m1 t1 h w r hm1 hr hh.symm,
      ServeHTTP_hit M σ m2 t2 h w r hm2 hr (hS ▸ hh.symm), Or.inl hh.symm⟩
  case pos =>
    by_cases hH : M = Method.HEAD
    · subst hH
      by_cases hg : t1.Get = none
      · have hg2 : t2.Get = none := (hget rfl) ▸ hg
        obtain ⟨h, e1, e2, hd⟩ := onMiss hf (fun hc => hc.2 hg) (fun hc => hc.2 hg2)
        exact ⟨h, e1, e2, Or.inr (Or.inr ⟨hf, fun hc => hc.2 hg, hd⟩)⟩
      · obtain ⟨g, hg1⟩ := Option.ne_none_iff_exists.mp hg
        have hf2 : t2.Head = none := hS.symm.trans hf
        exact ⟨g, ServeHTTP_delegate σ m1 t1 g w r hm1 hr hf hg1.symm,
          ServeHTTP_delegate σ m2 t2 g w r hm2 hr hf2 ((hget rfl) ▸ hg1.symm),
          Or.inr (Or.inl ⟨rfl, hf, hg1.symm⟩)⟩
    · obtain ⟨h, e1, e2, hd⟩ := onMiss hf (fun hc => hH hc.1) (fun hc => hH hc.1)
      exact ⟨h, e1, e2, Or.inr (Or.inr ⟨hf, fun hc => hH hc.1, hd⟩)⟩

/-- Witness for C20: a POST request invokes handler 3 against both tables of `twoTables`,
which agree on `Post` and `Default` only. -/
theorem slot_isolation_witness :
    ∃ h, Mux.ServeHTTP 0 () (NewRequest "POST") twoTables
        = some ([⟨h, (), NewRequest "POST"⟩], twoTables)
      ∧ Mux.ServeHTTP 1 () (NewRequest "POST") twoTables
        = some ([⟨h, (), NewRequest "POST"⟩], twoTables) :=
  match slot_isolation Method.POST twoTables 0 1
    { Get := some 1, Head := some 2, Post := some 3, Put := some 4, Delete := some 5,
      Trace := some 6, Options := some 7, Connect := some 8, Patch := some 9 }
    { Post := some 3 } () (NewRequest "POST") (by decide) (by decide) (by decide)
    (by decide) (by decide) (by decide) with
  | ⟨h, e1, e2, _⟩ => ⟨h, e1, e2⟩

end Methodr
